import Mathlib

/-!
Verification development for `itensor/util/infarray.h` (class `itensor::InfArray<T,ArrSize>`).

The container is embedded shallowly at element type `Int`.  A state carries the
four data members of the class (`data_`, `size_`, `arr_`, `vec_`) plus two
identities that stand for machine addresses:

* `objId` — the address of the object itself; `&arr_.front()` is modelled as
  `Loc.inlineBuf objId` (a `std::array` member lives inside the object and its
  address never moves, even under `std::array::swap`, which exchanges contents).
* `allocId` — the identity of the heap allocation currently owned by `vec_`;
  `vec_.data()` is modelled as `Loc.heapBuf allocId`.  `std::vector::swap` and
  vector move transfer the allocation between objects, so those operations
  transfer `allocId`.

Dereferencing a raw pointer is resolved against a world (a list of live
containers): `derefRead`.  Writing through the container's own `data_` pointer
is `writeSelf`.
-/

set_option autoImplicit false

namespace ITensor

/-- A raw element pointer: null, the first slot of some object's inline
`std::array` buffer, or the start of some heap allocation owned by a
`std::vector`. -/
inductive Loc where
  | nullp : Loc
  | inlineBuf : Nat → Loc
  | heapBuf : Nat → Loc
deriving DecidableEq

/-- The state of one `InfArray<int, n>` object (`n` = `ArrSize`, the inline
threshold).  Fields `data_`, `size_`, `arr_`, `vec_` mirror the class members;
`objId`/`allocId` are the address identities described above.  The contents of
`arr_` are total over `Fin n` (a `std::array` always has `n` slots, possibly
holding indeterminate leftover values). -/
structure InfArray (n : Nat) where
  objId : Nat
  allocId : Nat
  data_ : Loc
  size_ : Nat
  arr_ : Fin n → Int
  vec_ : List Int

variable {n : Nat}

/-- Read slot `i` of an inline buffer; out-of-range reads (undefined behavior
in the source) return 0. -/
def arrGet (a : Fin n → Int) (i : Nat) : Int :=
  if h : i < n then a ⟨i, h⟩ else 0

/-- Write slot `i` of an inline buffer (`arr_[i] = v`); out-of-range writes
(undefined behavior in the source) change nothing. -/
def arrSet (a : Fin n → Int) (i : Nat) (v : Int) : Fin n → Int :=
  fun j => if j.val = i then v else a j

/-- `std::vector<T>::resize(m)`: keep the common prefix, value-initialize (to
0 for `int`) any newly created elements. -/
def vecResize (v : List Int) (m : Nat) : List Int :=
  match m, v with
  | 0, _ => []
  | m + 1, [] => 0 :: vecResize [] m
  | m + 1, x :: xs => x :: vecResize xs m

/-- `std::copy(arr_.begin(), arr_.begin()+k, vec_data)`: overwrite the first
`k` slots of the vector contents `v` with the inline-buffer prefix, leaving the
rest; `i` is the absolute index of the head of `v` (call with `i = 0`). -/
def copyArrToVec (a : Fin n → Int) (k : Nat) (i : Nat) (v : List Int) : List Int :=
  match v with
  | [] => []
  | x :: xs => (if i < k then arrGet a i else x) :: copyArrToVec a k (i + 1) xs

/-- `std::copy(vec_.begin(), vec_.begin()+k, arr_data)`: overwrite the first
`k` slots of the inline buffer with the vector prefix. -/
def copyVecToArr (v : List Int) (k : Nat) (a : Fin n → Int) : Fin n → Int :=
  fun j => if j.val < k then v.getD j.val 0 else a j

/-- Resolve a raw pointer `p` at offset `i` against the world `w` of live
containers: `inlineBuf k` reads the `arr_` of the object whose address is `k`,
`heapBuf k` reads the `vec_` of the object owning allocation `k`.  A dangling
pointer (no owner in the world) reads 0 (undefined behavior in the source). -/
def derefRead (p : Loc) (w : List (InfArray n)) (i : Nat) : Int :=
  match p with
  | .nullp => 0
  | .inlineBuf k =>
      match w.find? (fun c => c.objId == k) with
      | some c => arrGet c.arr_ i
      | none => 0
  | .heapBuf k =>
      match w.find? (fun c => c.allocId == k) with
      | some c => c.vec_.getD i 0
      | none => 0

/-- `data_[i]` read in a world containing only this container. -/
def InfArray.get (c : InfArray n) (i : Nat) : Int :=
  derefRead c.data_ [c] i

/-- `data_[i] = v`: write through the container's own `data_` pointer.  When
`data_` does not reference this object's storage the write lands elsewhere
(undefined behavior in the source); the container itself is unchanged then. -/
def InfArray.writeSelf (c : InfArray n) (i : Nat) (v : Int) : InfArray n :=
  match c.data_ with
  | .nullp => c
  | .inlineBuf k => if k = c.objId then { c with arr_ := arrSet c.arr_ i v } else c
  | .heapBuf k => if k = c.allocId then { c with vec_ := c.vec_.set i v } else c

/-- `size()`. -/
def InfArray.size (c : InfArray n) : Nat := c.size_

/-- `vec_size()` — the current heap-buffer length `vec_.size()`. -/
def InfArray.vec_size (c : InfArray n) : Nat := c.vec_.length

/-- `empty()`. -/
def InfArray.emptyq (c : InfArray n) : Bool := c.size_ == 0

/-- The default constructor `InfArray()`: `size_ = 0`, `data_ = &arr_.front()`.
The inline buffer starts with indeterminate contents `g`. -/
def InfArray.mkEmpty (g : Fin n → Int) (objId allocId : Nat) : InfArray n :=
  { objId := objId, allocId := allocId, data_ := .inlineBuf objId,
    size_ := 0, arr_ := g, vec_ := [] }

/-- The sized constructor `InfArray(size_t size)`, translated exactly: note the
strict test `size < ArrSize` (source line 53), so `size == ArrSize` takes the
heap branch (`vec_.resize(size)`, `data_ = vec_.data()`, `size_ = vec_.size()`). -/
def InfArray.mkSized (g : Fin n → Int) (objId allocId : Nat) (size : Nat) : InfArray n :=
  if size < n then
    { objId := objId, allocId := allocId, data_ := .inlineBuf objId,
      size_ := size, arr_ := g, vec_ := [] }
  else
    let v := vecResize [] size
    { objId := objId, allocId := allocId, data_ := .heapBuf allocId,
      size_ := v.length, arr_ := g, vec_ := v }

/-- `resize(new_size)` (source lines 93–117): heap branch grows `vec_` to
exactly `new_size`, copies the inline prefix when the old `size_ ≤ ArrSize`,
and points `data_` at the vector; inline branch copies the first `new_size`
heap elements back when the old `size_ > ArrSize`, clears `vec_`, and points
`data_` at the inline buffer. -/
def InfArray.resize (c : InfArray n) (new_size : Nat) : InfArray n :=
  if new_size > n then
    let v0 := vecResize c.vec_ new_size
    let v := if c.size_ ≤ n then copyArrToVec c.arr_ c.size_ 0 v0 else v0
    { c with vec_ := v, data_ := .heapBuf c.allocId, size_ := new_size }
  else
    let a := if c.size_ > n then copyVecToArr c.vec_ new_size c.arr_ else c.arr_
    { c with arr_ := a, vec_ := [], data_ := .inlineBuf c.objId, size_ := new_size }

/-- `clear()` (source lines 119–125). -/
def InfArray.clear (c : InfArray n) : InfArray n :=
  { c with data_ := .inlineBuf c.objId, size_ := 0, vec_ := [] }

/-- `back() = val`: write the last logical element through `data_`. -/
def InfArray.back_set (c : InfArray n) (v : Int) : InfArray n :=
  c.writeSelf (c.size_ - 1) v

/-- `push_back(val)` (source lines 127–146): inline append while
`size_ < ArrSize`; at `size_ == ArrSize`, `resize(size_+1)` (the migration)
then `back() = val`; beyond, `vec_.push_back(val)` and refresh `data_`. -/
def InfArray.push_back (c : InfArray n) (v : Int) : InfArray n :=
  if c.size_ < n then
    { c with arr_ := arrSet c.arr_ c.size_ v, size_ := c.size_ + 1 }
  else if c.size_ = n then
    (c.resize (c.size_ + 1)).back_set v
  else
    { c with vec_ := c.vec_ ++ [v], data_ := .heapBuf c.allocId, size_ := c.size_ + 1 }

/-- A sequence of `push_back` calls. -/
def InfArray.pushAll (c : InfArray n) (vs : List Int) : InfArray n :=
  vs.foldl InfArray.push_back c

/-- `fill(val)`: `std::fill(begin(), end(), val)` — write `val` through `data_`
at offsets `0 .. size_-1`. -/
def InfArray.fill (c : InfArray n) (v : Int) : InfArray n :=
  (List.range c.size_).foldl (fun acc i => acc.writeSelf i v) c

/-- `assign(count, val)` (source lines 169–175). -/
def InfArray.assign (c : InfArray n) (count : Nat) (v : Int) : InfArray n :=
  (c.resize count).fill v

/-- The fill constructor `InfArray(size_t, const_reference)`: delegate to the
sized constructor, then `std::fill(begin(), end(), value)`. -/
def InfArray.mkFilled (g : Fin n → Int) (objId allocId : Nat) (size : Nat) (v : Int) :
    InfArray n :=
  (InfArray.mkSized g objId allocId size).fill v

/-- The write loop of the initializer-list constructor: `*p = el; ++p` starting
at `data_` (offset `i`). -/
def InfArray.storeList (c : InfArray n) (i : Nat) (vs : List Int) : InfArray n :=
  match vs with
  | [] => c
  | v :: rest => (c.writeSelf i v).storeList (i + 1) rest

/-- The initializer-list constructor `InfArray(std::initializer_list<T>)`
(source lines 73–82): members start default-initialized (`data_ = nullptr`,
`size_ = 0`, `arr_` indeterminate, `vec_` empty), then `resize(init.size())`
(which sets `data_` in both branches), then the elements are written through
`data_` in order. -/
def InfArray.mkInitList (g : Fin n → Int) (objId allocId : Nat) (init : List Int) :
    InfArray n :=
  (({ objId := objId, allocId := allocId, data_ := .nullp,
      size_ := 0, arr_ := g, vec_ := [] } : InfArray n).resize init.length).storeList 0 init

/-- `a.swap(b)` (source lines 218–225), translated exactly:
`std::swap(data_, other.data_)` exchanges the raw pointer values;
`std::swap(size_, ...)` the sizes; `arr_.swap(...)` exchanges inline contents
in place (addresses, i.e. `objId`s, do not move); `vec_.swap(...)` exchanges
the heap allocations themselves, so `allocId` travels. Returns (new a, new b). -/
def InfArray.swap (a b : InfArray n) : InfArray n × InfArray n :=
  ({ a with data_ := b.data_, size_ := b.size_, arr_ := b.arr_,
            vec_ := b.vec_, allocId := b.allocId },
   { b with data_ := a.data_, size_ := a.size_, arr_ := a.arr_,
            vec_ := a.vec_, allocId := a.allocId })

/-- The implicitly generated copy constructor (the class declares no copy
operations, so the compiler copies member by member): `data_` is copied as a
raw pointer value, `size_` and `arr_` are copied, and `vec_` is deep-copied
into a fresh allocation (`allocId`) owned by the new object (`objId`). -/
def InfArray.copyCtor (src : InfArray n) (objId allocId : Nat) : InfArray n :=
  { objId := objId, allocId := allocId, data_ := src.data_,
    size_ := src.size_, arr_ := src.arr_, vec_ := src.vec_ }

/-- The implicitly generated move constructor: `data_` and `size_` are copied
(moving a pointer or an integer copies it), `arr_` is moved element-wise (for
`int`, a copy, and the source array keeps its values), and `vec_` is moved —
the destination's vector takes over the source's allocation (the destination's
`allocId` becomes the source's) and the source's vector is left empty, owning
no allocation (modelled by the fresh identity `srcFreshAllocId`).  Returns
(destination, source after the move). -/
def InfArray.moveCtor (src : InfArray n) (objId srcFreshAllocId : Nat) :
    InfArray n × InfArray n :=
  ({ objId := objId, allocId := src.allocId, data_ := src.data_,
     size_ := src.size_, arr_ := src.arr_, vec_ := src.vec_ },
   { src with vec_ := [], allocId := srcFreshAllocId })

/-- `check_ind(i)` (source lines 246–250): fatal `Error("index out of range in
InfArray")` when `i >= size_`. -/
def InfArray.check_ind (c : InfArray n) (i : Nat) : Except String Unit :=
  if i ≥ c.size_ then .error "index out of range in InfArray" else .ok ()

/-- `check_empty()` (source lines 251–255): fatal `Error("InfArray is empty")`
when `size_ == 0`. -/
def InfArray.check_empty (c : InfArray n) : Except String Unit :=
  if c.size_ = 0 then .error "InfArray is empty" else .ok ()

/-- `at(i)` (source lines 185–189): always-checked access — `check_ind(i)`
then `data_[i]`, in every build mode. -/
def InfArray.at' (c : InfArray n) (i : Nat) : Except String Int :=
  match c.check_ind i with
  | .error e => .error e
  | .ok _ => .ok (c.get i)

/-- `operator[](i)` with `DEBUG` instrumentation enabled (source line 180):
`CHECK_IND(i)` expands to `check_ind(i)`, then `data_[i]`. -/
def InfArray.getDbg (c : InfArray n) (i : Nat) : Except String Int :=
  match c.check_ind i with
  | .error e => .error e
  | .ok _ => .ok (c.get i)

/-- `front()` with `DEBUG` instrumentation enabled (source line 192):
`CHECK_EMPTY` then `*data_`. -/
def InfArray.frontDbg (c : InfArray n) : Except String Int :=
  match c.check_empty with
  | .error e => .error e
  | .ok _ => .ok (c.get 0)

/-- `back()` with `DEBUG` instrumentation enabled (source line 198):
`CHECK_EMPTY` then `data_[size_-1]`. -/
def InfArray.backDbg (c : InfArray n) : Except String Int :=
  match c.check_empty with
  | .error e => .error e
  | .ok _ => .ok (c.get (c.size_ - 1))

/-- The cumulative effect on an inline buffer of writing the values `vs` at
consecutive slots starting at `s`. -/
def arrStoreList (a : Fin n → Int) (s : Nat) (vs : List Int) : Fin n → Int :=
  match vs with
  | [] => a
  | v :: rest => arrStoreList (arrSet a s v) (s + 1) rest

/-! ### Concrete instances used to evaluate the code on specific inputs
(threshold 4 unless noted; inline buffers start zeroed, standing for whatever
indeterminate contents a real run would hold). -/

/-- Container `A` of the swap scenario: inline-backed `[1,2,3]`, object address
0, heap-allocation identity 10. -/
def c1A : InfArray 4 := InfArray.mkInitList (fun _ => 0) 0 10 [1, 2, 3]

/-- Container `B` of the swap scenario: heap-backed `[9,8,7,6,5]`, object
address 1, heap-allocation identity 11. -/
def c1B : InfArray 4 := InfArray.mkInitList (fun _ => 0) 1 11 [9, 8, 7, 6, 5]

/-- The pair (new `A`, new `B`) after `A.swap(B)`. -/
def c1post : InfArray 4 × InfArray 4 := c1A.swap c1B

/-- `InfArray<int,4> c(4)` — the sized constructor at the boundary `N == ArrSize`. -/
def c2ctor : InfArray 4 := InfArray.mkSized (fun _ => 0) 0 10 4

/-- The boundary-constructed container after `fill(7)`. -/
def c2filled : InfArray 4 := c2ctor.fill 7

/-- ... and then `push_back(9)`. -/
def c2after : InfArray 4 := c2filled.push_back 9

/-- `InfArray<int,3> c(3)` — the sized constructor at the boundary for
threshold 3. -/
def c3ctor : InfArray 3 := InfArray.mkSized (fun _ => 0) 0 5 3

/-- A heap-backed container (threshold 4) to be moved from. -/
def c5src : InfArray 4 := InfArray.mkInitList (fun _ => 0) 0 10 [9, 8, 7, 6, 5]

/-- (destination, source-after-move) of move-constructing from `c5src`; the
destination is object 2 and the source's emptied vector gets fresh
allocation identity 20. -/
def c5post : InfArray 4 × InfArray 4 := c5src.moveCtor 2 20

/-- An inline-backed container `[1,2]` (threshold 4) to be copied from. -/
def c6src : InfArray 4 := InfArray.mkInitList (fun _ => 0) 0 10 [1, 2]

/-- Copy-construction from `c6src` into object 1 with fresh allocation 20. -/
def c6copy : InfArray 4 := c6src.copyCtor 1 20

/-- The source after the element write `c6src[0] = 42`. -/
def c6srcMut : InfArray 4 := c6src.writeSelf 0 42

/-- An inline-backed container `[1,2]` (threshold 4) used to instantiate the
inline-to-inline resize frame theorem. -/
def c9ex : InfArray 4 := InfArray.mkInitList (fun _ => 0) 0 10 [1, 2]

/-! ### Helper lemmas about the buffer primitives -/

lemma arrGet_arrSet_self (a : Fin n → Int) (i : Nat) (v : Int) (h : i < n) :
    arrGet (arrSet a i v) i = v := by
  simp [arrGet, arrSet, h]

lemma arrGet_arrSet_ne (a : Fin n → Int) (i j : Nat) (v : Int) (hij : j ≠ i) :
    arrGet (arrSet a i v) j = arrGet a j := by
  by_cases h : j < n <;> simp [arrGet, arrSet, h, hij]

lemma length_vecResize : ∀ (m : Nat) (v : List Int), (vecResize v m).length = m := by
  intro m
  induction m with
  | zero => intro v; cases v <;> simp [vecResize]
  | succ m ih => intro v; cases v <;> simp [vecResize, ih]

lemma getD_vecResize_nil : ∀ (m j : Nat), (vecResize ([] : List Int) m).getD j 0 = 0 := by
  intro m
  induction m with
  | zero => intro j; simp [vecResize]
  | succ m ih =>
      intro j
      cases j with
      | zero => simp [vecResize]
      | succ j =>
          rw [show vecResize ([] : List Int) (m + 1) = 0 :: vecResize [] m from rfl,
            List.getD_cons_succ]
          exact ih j

lemma length_copyArrToVec (a : Fin n → Int) (k : Nat) :
    ∀ (v : List Int) (i : Nat), (copyArrToVec a k i v).length = v.length := by
  intro v
  induction v with
  | nil => intro i; simp [copyArrToVec]
  | cons x xs ih => intro i; simp [copyArrToVec, ih]

lemma getD_copyArrToVec (a : Fin n → Int) (k : Nat) :
    ∀ (v : List Int) (i j : Nat), j < v.length →
      (copyArrToVec a k i v).getD j 0 =
        if i + j < k then arrGet a (i + j) else v.getD j 0 := by
  intro v
  induction v with
  | nil => intro i j h; simp at h
  | cons x xs ih =>
      intro i j h
      cases j with
      | zero => simp [copyArrToVec]
      | succ jj =>
          have hj : jj < xs.length := by simpa using h
          have := ih (i + 1) jj hj
          have harith : i + 1 + jj = i + (jj + 1) := by omega
          simp only [copyArrToVec, List.getD_cons_succ]
          rw [this, harith]

lemma getD_set_self : ∀ (v : List Int) (i : Nat) (x : Int), i < v.length →
    (v.set i x).getD i 0 = x := by
  intro v
  induction v with
  | nil => intro i x h; simp at h
  | cons y ys ih =>
      intro i x h
      cases i with
      | zero => simp
      | succ i => simpa using ih i x (by simpa using h)

lemma getD_set_ne : ∀ (v : List Int) (i j : Nat) (x : Int), i ≠ j →
    (v.set i x).getD j 0 = v.getD j 0 := by
  intro v
  induction v with
  | nil => intro i j x _; simp
  | cons y ys ih =>
      intro i j x hij
      cases i with
      | zero =>
          cases j with
          | zero => exact absurd rfl hij
          | succ j => simp
      | succ i =>
          cases j with
          | zero => simp
          | succ j => simpa using ih i j x (by omega)

lemma getD_append_left : ∀ (l₁ l₂ : List Int) (j : Nat), j < l₁.length →
    (l₁ ++ l₂).getD j 0 = l₁.getD j 0 := by
  intro l₁
  induction l₁ with
  | nil => intro l₂ j h; simp at h
  | cons x xs ih =>
      intro l₂ j h
      cases j with
      | zero => simp
      | succ j => simpa using ih l₂ j (by simpa using h)

lemma getD_append_at : ∀ (l : List Int) (x : Int), (l ++ [x]).getD l.length 0 = x := by
  intro l
  induction l with
  | nil => intro x; simp
  | cons y ys ih => intro x; simp [ih x]

lemma arrStoreList_lt : ∀ (vs : List Int) (a : Fin n → Int) (s j : Nat), j < s →
    arrGet (arrStoreList a s vs) j = arrGet a j := by
  intro vs
  induction vs with
  | nil => intro a s j _; rfl
  | cons v rest ih =>
      intro a s j hj
      have := ih (arrSet a s v) (s + 1) j (by omega)
      rw [arrStoreList, this, arrGet_arrSet_ne a s j v (by omega)]

lemma arrStoreList_get : ∀ (vs : List Int) (a : Fin n → Int) (s j : Nat),
    s ≤ j → j < s + vs.length → s + vs.length ≤ n →
    arrGet (arrStoreList a s vs) j = vs.getD (j - s) 0 := by
  intro vs
  induction vs with
  | nil => intro a s j h1 h2 _; simp at h2; omega
  | cons v rest ih =>
      intro a s j h1 h2 h3
      rcases Nat.eq_or_lt_of_le h1 with heq | hlt
      · subst heq
        rw [arrStoreList, arrStoreList_lt rest (arrSet a s v) (s + 1) s (by omega)]
        rw [arrGet_arrSet_self a s v (by simp at h3; omega)]
        simp
      · have := ih (arrSet a s v) (s + 1) j (by omega)
          (by simp at h2 ⊢; omega) (by simp at h3 ⊢; omega)
        rw [arrStoreList, this]
        have harith : j - s = (j - (s + 1)) + 1 := by omega
        rw [harith, List.getD_cons_succ]

lemma arrGet_copyVecToArr_lt (v : List Int) (k : Nat) (a : Fin n → Int) (j : Nat)
    (hjk : j < k) (hkn : k ≤ n) :
    arrGet (copyVecToArr v k a) j = v.getD j 0 := by
  have hjn : j < n := by omega
  simp [arrGet, copyVecToArr, hjn, hjk]

/-! ### Helper lemmas about the operations -/

lemma pushAll_inline : ∀ (vs : List Int) (c : InfArray n), c.size_ + vs.length ≤ n →
    c.pushAll vs =
      { c with arr_ := arrStoreList c.arr_ c.size_ vs, size_ := c.size_ + vs.length } := by
  intro vs
  induction vs with
  | nil => intro c _; simp [InfArray.pushAll, arrStoreList]
  | cons v rest ih =>
      intro c hle
      obtain ⟨o, a, d, s, A, w⟩ := c
      simp only [InfArray.pushAll, List.foldl_cons] at *
      have hlt : s < n := by simp at hle; omega
      have hpb : InfArray.push_back ⟨o, a, d, s, A, w⟩ v =
          ⟨o, a, d, s + 1, arrSet A s v, w⟩ := by
        simp [InfArray.push_back, hlt]
      rw [hpb]
      have := ih ⟨o, a, d, s + 1, arrSet A s v, w⟩ (by simp at hle ⊢; omega)
      simp only [InfArray.pushAll] at this
      rw [this]
      simp only [arrStoreList]
      congr 1
      simp at hle ⊢
      omega

lemma storeList_inline : ∀ (vs : List Int) (c : InfArray n) (s : Nat),
    c.data_ = .inlineBuf c.objId →
    c.storeList s vs = { c with arr_ := arrStoreList c.arr_ s vs } := by
  intro vs
  induction vs with
  | nil => intro c s _; simp [InfArray.storeList, arrStoreList]
  | cons v rest ih =>
      intro c s hd
      obtain ⟨o, a, d, sz, A, w⟩ := c
      simp only at hd
      subst hd
      simp only [InfArray.storeList]
      have hws : InfArray.writeSelf ⟨o, a, .inlineBuf o, sz, A, w⟩ s v =
          ⟨o, a, .inlineBuf o, sz, arrSet A s v, w⟩ := by
        simp [InfArray.writeSelf]
      rw [hws, ih ⟨o, a, .inlineBuf o, sz, arrSet A s v, w⟩ (s + 1) rfl]
      rfl

/-! ### Claim theorems -/

/-- Claim C1: the claim states that after `A.swap(B)` each container's active
pointer references that container's own storage and B holds `[1,2,3]`.  The
code refutes it: `swap` exchanges the raw `data_` pointers while `arr_.swap`
exchanges inline contents in place, so on the claim's own instance (threshold
4, `A` inline `[1,2,3]`, `B` heap `[9,8,7,6,5]`) the new `B`'s active pointer
is `A`'s inline buffer (address 0, while `B` is object 1 owning allocation
10), and `B` reads `B`'s old indeterminate inline leftovers (here 0), not 1. -/
theorem swap_leaves_pointer_into_other_instance :
    c1post.1.size_ = 5 ∧
    c1post.1.data_ = Loc.heapBuf 11 ∧
    c1post.1.allocId = 11 ∧
    derefRead c1post.1.data_ [c1post.1, c1post.2] 0 = 9 ∧
    c1post.2.size_ = 3 ∧
    c1post.2.objId = 1 ∧
    c1post.2.allocId = 10 ∧
    c1post.2.data_ = Loc.inlineBuf 0 ∧
    derefRead c1post.2.data_ [c1post.2, c1post.1] 0 = 0 := by
  decide

/-- Claim C2: the claim states that constructing with length `N == threshold`
is inline-backed with heap length 0.  The code refutes it: the sized
constructor tests `size < ArrSize` (strict), so `InfArray<int,4> c(4)` takes
the heap branch — `size() == 4` but `vec_size() == 4` and `data_` points at the
heap buffer.  The follow-on conjuncts show the slip contradicts the rest of the
file: after `fill(7)` (elements all 7) a single `push_back(9)` routes through
`resize(5)`, which copies the (never-written) inline buffer over the heap data,
so element 0 reads 0 instead of 7. -/
theorem ctor_boundary_heap_allocated :
    c2ctor.size_ = 4 ∧
    c2ctor.vec_size = 4 ∧
    c2ctor.data_ = Loc.heapBuf 10 ∧
    c2filled.get 0 = 7 ∧
    c2after.size_ = 5 ∧
    c2after.get 0 = 0 ∧
    c2after.get 4 = 9 := by
  decide

/-- Claim C3: the claim states that in every reachable state the heap buffer is
non-empty iff `size > threshold`.  The code refutes it at a state reached by a
constructor call alone: `InfArray<int,3> c(3)` yields `size() == 3 ≤ 3` with
`vec_size() == 3 ≠ 0` and a heap-backed active pointer. -/
theorem invariant_broken_by_boundary_ctor :
    c3ctor.size_ ≤ 3 ∧
    c3ctor.vec_size = 3 ∧
    c3ctor.data_ = Loc.heapBuf 5 := by
  decide

/-- Claim C5: the claim states that a move resets the source to the empty,
inline-active state.  The code refutes it: the class declares no move
operations, so the implicitly generated move constructor copies `data_` and
`size_` and only moves `vec_`.  Moving from the heap-backed `[9,8,7,6,5]`
(threshold 4): the destination is intact (size 5, owns allocation 10, reads 9
at index 0), but the source keeps `size_ == 5` (not 0) with an empty vector,
and its `data_` still points at allocation 10 — storage now owned by the
destination — rather than its own inline buffer. -/
theorem move_leaves_source_unreset :
    c5post.1.size_ = 5 ∧
    c5post.1.allocId = 10 ∧
    c5post.1.data_ = Loc.heapBuf 10 ∧
    derefRead c5post.1.data_ [c5post.1, c5post.2] 0 = 9 ∧
    c5post.2.size_ = 5 ∧
    c5post.2.vec_ = [] ∧
    c5post.2.allocId = 20 ∧
    c5post.2.data_ = Loc.heapBuf 10 := by
  decide

/-- Claim C6: the claim states that a copy owns independent storage, so
mutating the source never changes a value read from the copy.  The code
refutes it: the class declares no copy operations, so the implicitly generated
copy constructor copies the raw `data_` pointer.  Copying the inline-backed
`[1,2]` (threshold 4): the copy (object 1) has its `data_` at the source's
inline buffer (object 0); it reads 1 before the source mutation and 42 after
`src[0] = 42`. -/
theorem copy_reads_source_storage :
    c6copy.size_ = 2 ∧
    c6copy.objId = 1 ∧
    c6copy.allocId = 20 ∧
    c6copy.data_ = Loc.inlineBuf 0 ∧
    derefRead c6copy.data_ [c6src, c6copy] 0 = 1 ∧
    derefRead c6copy.data_ [c6srcMut, c6copy] 0 = 42 := by
  decide

/-- Claim C8: for every container state, `clear()` produces exactly the same
resulting state as `resize(0)`: size 0, empty heap buffer, active pointer at
the container's own inline buffer, and the inline contents untouched. -/
theorem clear_eq_resize_zero (c : InfArray n) : c.clear = c.resize 0 := by
  obtain ⟨o, a, d, s, A, v⟩ := c
  simp only [InfArray.clear, InfArray.resize]
  rw [if_neg (by omega : ¬ (0 > n))]
  congr 1
  split
  · funext j
    simp [copyVecToArr]
  · rfl

/-- Claim C7: the always-checked `at(i)` fails with the fatal "index out of
range" error exactly when `i ≥ size()` and otherwise returns the element read
through the active pointer at offset `i` (the code's message is "index out of
range in InfArray"); under `DEBUG` instrumentation, `operator[]` performs the
identical check, and `front()`/`back()` fail with the fatal "is empty" error
(the code's message is "InfArray is empty") exactly when `size() == 0`. -/
theorem checked_access_conditions (c : InfArray n) (i : Nat) :
    (c.at' i = Except.error "index out of range in InfArray" ↔ c.size_ ≤ i) ∧
    (c.at' i = Except.ok (c.get i) ↔ i < c.size_) ∧
    (c.getDbg i = c.at' i) ∧
    (c.frontDbg = Except.error "InfArray is empty" ↔ c.size_ = 0) ∧
    (c.backDbg = Except.error "InfArray is empty" ↔ c.size_ = 0) := by
  unfold InfArray.at' InfArray.getDbg InfArray.frontDbg InfArray.backDbg
    InfArray.check_ind InfArray.check_empty
  by_cases h : c.size_ ≤ i <;> by_cases h0 : c.size_ = 0
  all_goals (simp [h, h0]; try omega)

/-- Claim C9: an inline-to-inline `resize` (current size and new size both
within the threshold, container inline-backed so its heap buffer is empty and
its pointer is at its own inline buffer) changes nothing but `size_`; in
particular every inline slot keeps its value, so the indices that become
visible read whatever those slots already contained. -/
theorem resize_inline_inline_frame (c : InfArray n) (m : Nat)
    (hs : c.size_ ≤ n) (hm : m ≤ n)
    (hv : c.vec_ = []) (hd : c.data_ = .inlineBuf c.objId) :
    c.resize m = { c with size_ := m } ∧
    ∀ j, j < m → (c.resize m).get j = arrGet c.arr_ j := by
  obtain ⟨o, a, d, s, A, v⟩ := c
  have hv' : v = [] := hv
  have hd' : d = .inlineBuf o := hd
  subst hv'
  subst hd'
  have hm' : ¬ (n < m) := by omega
  have hs' : ¬ (n < s) := by simp at hs; omega
  constructor
  · simp [InfArray.resize, hm', hs']
  · intro j hj
    simp [InfArray.resize, hm', hs', InfArray.get, derefRead, List.find?]

/-- Witness for C9: the theorem instantiated at threshold 4, the inline
container `[1,2]`, and new size 3. -/
theorem resize_inline_inline_frame_witness :
    c9ex.resize 3 = { c9ex with size_ := 3 } ∧
    (∀ j, j < 3 → (c9ex.resize 3).get j = arrGet c9ex.arr_ j) :=
  resize_inline_inline_frame c9ex 3 (by decide) (by decide) (by decide) (by decide)

/-- Claim C10: constructing from an initializer list of length `L ≤ threshold`
— the boundary `L == threshold` included — yields `size() == L`, heap length 0,
the inline buffer as active storage, and the listed elements readable in order
(so only longer lists allocate). -/
theorem initlist_within_threshold_inline (g : Fin n → Int) (o a : Nat)
    (init : List Int) (hL : init.length ≤ n) :
    (InfArray.mkInitList g o a init).size_ = init.length ∧
    (InfArray.mkInitList g o a init).vec_size = 0 ∧
    (InfArray.mkInitList g o a init).data_ = Loc.inlineBuf o ∧
    ∀ j, j < init.length → (InfArray.mkInitList g o a init).get j = init.getD j 0 := by
  have hL' : ¬ (n < init.length) := by omega
  have h1 : InfArray.resize (⟨o, a, .nullp, 0, g, []⟩ : InfArray n) init.length
      = ⟨o, a, .inlineBuf o, init.length, g, []⟩ := by
    simp [InfArray.resize, hL']
  unfold InfArray.mkInitList
  rw [h1, storeList_inline init ⟨o, a, .inlineBuf o, init.length, g, []⟩ 0 rfl]
  refine ⟨rfl, rfl, rfl, ?_⟩
  intro j hj
  simp only [InfArray.get, derefRead, List.find?, beq_self_eq_true]
  rw [arrStoreList_get init g 0 j (by omega) (by omega) (by omega)]
  simp

/-- Witness for C10: the theorem instantiated at threshold 4 with the
boundary-length list `[1,2,3,4]`. -/
theorem initlist_within_threshold_inline_witness :
    (InfArray.mkInitList (n := 4) (fun _ => 0) 0 10 [1, 2, 3, 4]).size_ =
      ([1, 2, 3, 4] : List Int).length ∧
    (InfArray.mkInitList (n := 4) (fun _ => 0) 0 10 [1, 2, 3, 4]).vec_size = 0 ∧
    (InfArray.mkInitList (n := 4) (fun _ => 0) 0 10 [1, 2, 3, 4]).data_ =
      Loc.inlineBuf 0 ∧
    ∀ j, j < ([1, 2, 3, 4] : List Int).length →
      (InfArray.mkInitList (n := 4) (fun _ => 0) 0 10 [1, 2, 3, 4]).get j =
        ([1, 2, 3, 4] : List Int).getD j 0 :=
  initlist_within_threshold_inline (fun _ => 0) 0 10 [1, 2, 3, 4] (by decide)

/-- Claim C4: starting from an empty container with threshold `n ≥ 1`, pushing
the `n + 1` values `vs` crosses the inline/heap boundary exactly once and
leaves `size() == n+1`, heap-backed with heap length `n+1`, reading the pushed
values in order; a subsequent `resize(n-1)` leaves `size() == n-1`, heap length
0, inline-backed, with the prefix `vs[0..n-2]` unchanged. -/
theorem push_crossing_then_shrink (g : Fin n → Int) (o a : Nat) (vs : List Int)
    (hn : 1 ≤ n) (hvs : vs.length = n + 1) :
    ((InfArray.mkEmpty g o a).pushAll vs).size_ = n + 1 ∧
    ((InfArray.mkEmpty g o a).pushAll vs).vec_size = n + 1 ∧
    ((InfArray.mkEmpty g o a).pushAll vs).data_ = Loc.heapBuf a ∧
    (∀ j, j < n + 1 → ((InfArray.mkEmpty g o a).pushAll vs).get j = vs.getD j 0) ∧
    (((InfArray.mkEmpty g o a).pushAll vs).resize (n - 1)).size_ = n - 1 ∧
    (((InfArray.mkEmpty g o a).pushAll vs).resize (n - 1)).vec_size = 0 ∧
    (((InfArray.mkEmpty g o a).pushAll vs).resize (n - 1)).data_ = Loc.inlineBuf o ∧
    (∀ j, j < n - 1 →
      (((InfArray.mkEmpty g o a).pushAll vs).resize (n - 1)).get j = vs.getD j 0) := by
  have hne : vs ≠ [] := by
    intro h
    rw [h] at hvs
    simp at hvs
  obtain ⟨F, w, hsplit, hFlen⟩ : ∃ F w, vs = F ++ [w] ∧ F.length = n := by
    refine ⟨vs.dropLast, vs.getLast hne, (List.dropLast_append_getLast hne).symm, ?_⟩
    rw [List.length_dropLast]
    omega
  subst hsplit
  -- the first n pushes stay inline
  have hpushF : (InfArray.mkEmpty g o a).pushAll F =
      ⟨o, a, .inlineBuf o, n, arrStoreList g 0 F, []⟩ := by
    rw [pushAll_inline F (InfArray.mkEmpty g o a) (by simp [InfArray.mkEmpty, hFlen])]
    simp [InfArray.mkEmpty, hFlen]
  -- the crossing push migrates to the heap and writes the last slot
  have hcross : InfArray.push_back (⟨o, a, .inlineBuf o, n, arrStoreList g 0 F, []⟩ :
      InfArray n) w =
      ⟨o, a, .heapBuf a, n + 1, arrStoreList g 0 F,
        (copyArrToVec (arrStoreList g 0 F) n 0 (vecResize [] (n + 1))).set n w⟩ := by
    unfold InfArray.push_back
    rw [if_neg (lt_irrefl n), if_pos rfl]
    unfold InfArray.resize
    rw [if_pos (by omega : n + 1 > n)]
    simp only [if_pos (le_refl n)]
    unfold InfArray.back_set InfArray.writeSelf
    simp
  have hall : (InfArray.mkEmpty g o a).pushAll (F ++ [w]) =
      ⟨o, a, .heapBuf a, n + 1, arrStoreList g 0 F,
        (copyArrToVec (arrStoreList g 0 F) n 0 (vecResize [] (n + 1))).set n w⟩ := by
    simp only [InfArray.pushAll, List.foldl_append, List.foldl_cons, List.foldl_nil]
    simp only [InfArray.pushAll] at hpushF
    rw [hpushF, hcross]
  have hVlen : ((copyArrToVec (arrStoreList g 0 F) n 0 (vecResize [] (n + 1))).set n w).length
      = n + 1 := by
    rw [List.length_set, length_copyArrToVec, length_vecResize]
  have hVget : ∀ j, j < n + 1 →
      ((copyArrToVec (arrStoreList g 0 F) n 0 (vecResize [] (n + 1))).set n w).getD j 0
        = (F ++ [w]).getD j 0 := by
    intro j hj
    rcases Nat.lt_or_ge j n with hjn | hjn
    · rw [getD_set_ne _ n j w (by omega)]
      rw [getD_copyArrToVec _ n _ 0 j (by rw [length_vecResize]; omega)]
      rw [if_pos (by omega : 0 + j < n)]
      rw [Nat.zero_add]
      rw [arrStoreList_get F g 0 j (by omega) (by omega) (by omega)]
      rw [Nat.sub_zero, getD_append_left F [w] j (by omega)]
    · have hj' : j = n := by omega
      rw [hj']
      rw [getD_set_self _ n w (by rw [length_copyArrToVec, length_vecResize]; omega)]
      rw [show n = F.length from hFlen.symm, getD_append_at]
  -- shrinking back: heap-to-inline migration
  have hshrink : InfArray.resize (⟨o, a, .heapBuf a, n + 1, arrStoreList g 0 F,
      (copyArrToVec (arrStoreList g 0 F) n 0 (vecResize [] (n + 1))).set n w⟩ :
        InfArray n) (n - 1) =
      ⟨o, a, .inlineBuf o, n - 1,
        copyVecToArr ((copyArrToVec (arrStoreList g 0 F) n 0 (vecResize [] (n + 1))).set n w)
          (n - 1) (arrStoreList g 0 F), []⟩ := by
    unfold InfArray.resize
    rw [if_neg (by omega : ¬ (n - 1 > n))]
    simp only [if_pos (by omega : n + 1 > n)]
  rw [hall, hshrink]
  refine ⟨rfl, ?_, rfl, ?_, rfl, rfl, rfl, ?_⟩
  · simp only [InfArray.vec_size]
    exact hVlen
  · intro j hj
    simp only [InfArray.get, derefRead, List.find?, beq_self_eq_true]
    exact hVget j hj
  · intro j hj
    simp only [InfArray.get, derefRead, List.find?, beq_self_eq_true]
    rw [arrGet_copyVecToArr_lt _ (n - 1) _ j hj (by omega)]
    exact hVget j (by omega)

/-- Witness for C4: the theorem instantiated at threshold 4 with the pushed
values `[10,20,30,40,50]`. -/
theorem push_crossing_then_shrink_witness :
    ((InfArray.mkEmpty (n := 4) (fun _ => 0) 0 10).pushAll [10, 20, 30, 40, 50]).size_ = 5 ∧
    ((InfArray.mkEmpty (n := 4) (fun _ => 0) 0 10).pushAll [10, 20, 30, 40, 50]).vec_size = 5 ∧
    ((InfArray.mkEmpty (n := 4) (fun _ => 0) 0 10).pushAll [10, 20, 30, 40, 50]).data_ =
      Loc.heapBuf 10 ∧
    (∀ j, j < 5 → ((InfArray.mkEmpty (n := 4) (fun _ => 0) 0 10).pushAll
      [10, 20, 30, 40, 50]).get j = ([10, 20, 30, 40, 50] : List Int).getD j 0) ∧
    (((InfArray.mkEmpty (n := 4) (fun _ => 0) 0 10).pushAll
      [10, 20, 30, 40, 50]).resize 3).size_ = 3 ∧
    (((InfArray.mkEmpty (n := 4) (fun _ => 0) 0 10).pushAll
      [10, 20, 30, 40, 50]).resize 3).vec_size = 0 ∧
    (((InfArray.mkEmpty (n := 4) (fun _ => 0) 0 10).pushAll
      [10, 20, 30, 40, 50]).resize 3).data_ = Loc.inlineBuf 0 ∧
    (∀ j, j < 3 → (((InfArray.mkEmpty (n := 4) (fun _ => 0) 0 10).pushAll
      [10, 20, 30, 40, 50]).resize 3).get j = ([10, 20, 30, 40, 50] : List Int).getD j 0) :=
  push_crossing_then_shrink (fun _ => 0) 0 10 [10, 20, 30, 40, 50] (by decide) (by decide)

end ITensor
